import Mathlib

/-!
Verification development for the sipa HSS backend core: the ORM schema of
`src/sipa/model/hss/schema.py`, and the derived user view exercised by
`src/tests/integration/test_hss_postgres.py` (traffic history, finance
balance, ledger merge, IP lookup, status flags).
-/

namespace Sipa

/-- Embeds the `account` table of src/sipa/model/hss/schema.py (class
`Account`): columns `account` (String(16) primary key), `name`
(String(255) not null), `traffic_balance` (BigInteger, not null, default
10000000000) and the nullable foreign key `access`. -/
structure Account where
  account : String
  name : String
  traffic_balance : Int
  access_id : Option Int
deriving DecidableEq, Repr

/-- The schema default of `Account.traffic_balance`
(src/sipa/model/hss/schema.py line 18). -/
def traffic_balance_default : Int := 10000000000

/-- Builds an `account` row the way an INSERT does: a value omitted for the
`traffic_balance` column (passed as `none`) receives the schema default. -/
def insertAccount (acc nm : String) (tb : Option Int) (access : Option Int) :
    Account :=
  { account := acc, name := nm,
    traffic_balance := tb.getD traffic_balance_default,
    access_id := access }

/-- Embeds the `ip` table of src/sipa/model/hss/schema.py (class `IP`):
primary-key column `ip` and a nullable `account` foreign key, so unclaimed
addresses exist as rows whose `account` is `none`. -/
structure IPRow where
  ip : String
  account : Option String
deriving DecidableEq, Repr

/-- Modelled from the spec: the class `User` of `sipa.model.hss.user` is
missing from the sources; per the spec the traffic balance is stored
upstream in bytes and converted exactly once to kilobytes by dividing by
1024, with no rounding beyond the single division. -/
def user_credit (a : Account) : ℚ := (a.traffic_balance : ℚ) / 1024

/-- Modelled from the spec: the backend-reported `properties.active` flag of
an account; the table behind it is missing from the sources. -/
structure AccountProps where
  active : Bool
deriving DecidableEq, Repr

/-- Modelled from the spec: `User.has_connection` is missing from the
sources; it reports the backend `active` property. -/
def has_connection (p : AccountProps) : Bool := p.active

/-- Modelled from the spec: `User.status` is missing from the sources; it is
a localized label keyed off the `active` property, the labels being the
strings the integration tests compare against. -/
def status (p : AccountProps) : String :=
  if p.active then "Aktiv" else "Passiv"

/-- Modelled from the spec: one ledger row shape; the tables behind the
statement ledger and the fee ledger (class `AccountStatementLog` and the fee
table, imported by the tests from `sipa.model.hss.schema`) are missing from
the sources; per the spec both shapes are
`{account, amount, timestamp, description}` once projected. -/
structure LedgerRow where
  account : String
  amount : ℚ
  timestamp : Nat
  description : String
deriving DecidableEq, Repr

/-- A projected transaction of the combined stream: per the spec an element
of `(source, amount, timestamp, ...)`. -/
structure Transaction where
  source : String
  amount : ℚ
  timestamp : Nat
deriving DecidableEq, Repr

instance : Inhabited Transaction := ⟨⟨"", 0, 0⟩⟩

/-- The statement-ledger rows of one account. -/
def statements_of (acc : String) (stmts : List LedgerRow) : List LedgerRow :=
  stmts.filter (fun r => r.account == acc)

/-- The fee-ledger rows of one account. -/
def fees_of (acc : String) (fees : List LedgerRow) : List LedgerRow :=
  fees.filter (fun r => r.account == acc)

/-- Projects the rows of one ledger to the common transaction shape,
tagging each with its source ledger. -/
def projectLedger (tag : String) (rows : List LedgerRow) : List Transaction :=
  rows.map (fun r => { source := tag, amount := r.amount,
                       timestamp := r.timestamp })

/-- Comparison of transactions by timestamp, the merge order of the
combined stream. -/
def byTimestamp (a b : Transaction) : Prop := a.timestamp ≤ b.timestamp

instance : DecidableRel byTimestamp :=
  fun a b => inferInstanceAs (Decidable (a.timestamp ≤ b.timestamp))

instance : IsTotal Transaction byTimestamp :=
  ⟨fun a b => Nat.le_total a.timestamp b.timestamp⟩

instance : IsTrans Transaction byTimestamp :=
  ⟨fun _ _ _ h h2 => Nat.le_trans h h2⟩

/-- Modelled from the spec: `Account.combined_transactions` is missing from
the sources; per the spec it merges the two differently shaped ledgers of
an account, normalized to a common projection, into one stream sorted by
timestamp ascending with a stable order on ties (insertion sort is
stable). -/
def combined_transactions (acc : String) (stmts fees : List LedgerRow) :
    List Transaction :=
  List.insertionSort byTimestamp
    (projectLedger "statement" (statements_of acc stmts) ++
     projectLedger "fee" (fees_of acc fees))

/-- All ledger rows of one account, statements and fees combined. -/
def ledger_rows (acc : String) (stmts fees : List LedgerRow) :
    List LedgerRow :=
  statements_of acc stmts ++ fees_of acc fees

/-- Modelled from the spec: `User.finance_balance` is missing from the
sources; per the spec it is the signed sum of all amounts over statements
and fees combined. -/
def finance_balance (acc : String) (stmts fees : List LedgerRow) : ℚ :=
  ((ledger_rows acc stmts fees).map (fun r => r.amount)).sum

/-- Modelled from the spec: `User.last_finance_update` is missing from the
sources; per the spec it is the maximum timestamp across all ledger rows of
the account, absent when there are none. -/
def last_finance_update (acc : String) (stmts fees : List LedgerRow) :
    Option Nat :=
  ((ledger_rows acc stmts fees).map (fun r => r.timestamp)).max?

/-- C3: the combined transaction stream is sorted by timestamp in
non-decreasing order: every pair of adjacent output entries has
`timestamp` ordered by `≤`. -/
theorem combined_transactions_sorted (acc : String)
    (stmts fees : List LedgerRow) (i : Nat)
    (h : i + 1 < (combined_transactions acc stmts fees).length) :
    ((combined_transactions acc stmts fees).getD i default).timestamp ≤
    ((combined_transactions acc stmts fees).getD (i + 1) default).timestamp := by
  have hs : List.Sorted byTimestamp (combined_transactions acc stmts fees) :=
    List.sorted_insertionSort byTimestamp _
  have h0 : i < (combined_transactions acc stmts fees).length :=
    Nat.lt_of_succ_lt h
  rw [List.getD_eq_get _ _ h0, List.getD_eq_get _ _ h]
  exact hs.rel_get_of_lt (a := ⟨i, h0⟩) (b := ⟨i + 1, h⟩)
    (Fin.mk_lt_mk.mpr (Nat.lt_succ_self i))

/-- Witness for C3 at a concrete two-ledger input whose raw concatenation is
out of order. -/
theorem combined_transactions_sorted_witness :
    ((combined_transactions "a" [⟨"a", 1, 10, "s"⟩] [⟨"a", 2, 5, "f"⟩]).getD
      0 default).timestamp ≤
    ((combined_transactions "a" [⟨"a", 1, 10, "s"⟩] [⟨"a", 2, 5, "f"⟩]).getD
      1 default).timestamp :=
  combined_transactions_sorted "a" [⟨"a", 1, 10, "s"⟩] [⟨"a", 2, 5, "f"⟩] 0
    (by decide)

/-- C4: the combined transaction stream has exactly one entry per statement
row plus one per fee row of the account: nothing is dropped or
duplicated by the merge. -/
theorem combined_transactions_length (acc : String)
    (stmts fees : List LedgerRow) :
    (combined_transactions acc stmts fees).length =
      (statements_of acc stmts).length + (fees_of acc fees).length := by
  unfold combined_transactions
  rw [(List.perm_insertionSort byTimestamp _).length_eq]
  simp [projectLedger]

/-- C5: for an account with at least one ledger row, the finance balance is
the signed sum of all amounts over statements and fees, and the last
finance update is the maximum timestamp across all ledger rows; in
particular a single fee of amount 3.5 with no statements gives balance 3.5
and last update the timestamp of that fee. -/
theorem finance_props (acc : String) (stmts fees : List LedgerRow)
    (h : ledger_rows acc stmts fees ≠ []) :
    (finance_balance acc stmts fees =
      ((statements_of acc stmts).map (fun r => r.amount)).sum +
      ((fees_of acc fees).map (fun r => r.amount)).sum) ∧
    (∃ m, last_finance_update acc stmts fees = some m ∧
      (∃ r, r ∈ ledger_rows acc stmts fees ∧ r.timestamp = m) ∧
      ∀ r, r ∈ ledger_rows acc stmts fees → r.timestamp ≤ m) ∧
    (∀ (a d : String) (ts : Nat),
      finance_balance a [] [⟨a, 3.5, ts, d⟩] = 3.5 ∧
      last_finance_update a [] [⟨a, 3.5, ts, d⟩] = some ts) := by
  refine ⟨?_, ?_, ?_⟩
  · simp [finance_balance, ledger_rows]
  · have hne : ((ledger_rows acc stmts fees).map (fun r => r.timestamp)) ≠ [] := by
      simpa using h
    cases hm : ((ledger_rows acc stmts fees).map (fun r => r.timestamp)).max? with
    | none => exact absurd (List.max?_eq_none_iff.mp hm) hne
    | some m =>
      refine ⟨m, hm, ?_, ?_⟩
      · have hmem : m ∈ (ledger_rows acc stmts fees).map (fun r => r.timestamp) :=
          List.max?_mem (fun a b => max_choice a b) hm
        obtain ⟨r, hr, hrt⟩ := List.mem_map.mp hmem
        exact ⟨r, hr, hrt⟩
      · intro r hr
        have hub := (List.max?_le_iff (fun a b c => max_le_iff) hm).mp
          (le_refl m)
        exact hub _ (List.mem_map_of_mem _ hr)
  · intro a d ts
    constructor
    · simp [finance_balance, ledger_rows, statements_of, fees_of]
    · simp [last_finance_update, ledger_rows, statements_of, fees_of,
        List.max?]

/-- Witness for C5: the single-fee scenario of amount 3.5. -/
theorem finance_props_witness :
    finance_balance "a" [] [⟨"a", 3.5, 5, "fee"⟩] = 3.5 ∧
    last_finance_update "a" [] [⟨"a", 3.5, 5, "fee"⟩] = some 5 :=
  (finance_props "a" [] [⟨"a", 3.5, 5, "fee"⟩] (by decide)).2.2 "a" "fee" 5

/-- C6: an account with zero ledger rows has finance balance exactly zero
and no last finance update, and this is an ordinary result, not an
error. -/
theorem finance_empty (acc : String) (stmts fees : List LedgerRow)
    (h : ledger_rows acc stmts fees = []) :
    finance_balance acc stmts fees = 0 ∧
    last_finance_update acc stmts fees = none := by
  constructor
  · simp [finance_balance, h]
  · simp [last_finance_update, h]

/-- Witness for C6: an account whose ledgers hold only rows of a different
account. -/
theorem finance_empty_witness :
    finance_balance "a" [⟨"b", 1, 2, "s"⟩] [] = 0 ∧
    last_finance_update "a" [⟨"b", 1, 2, "s"⟩] [] = none :=
  finance_empty "a" [⟨"b", 1, 2, "s"⟩] [] (by decide)

/-- The three distinguishable outcomes of looking up a user by IP: an owning
user, the anonymous result for an unclaimed address, and not-found for an
address with no row at all. -/
inductive IpLookup where
  | user (uid : String)
  | anonymous
  | notFound
deriving DecidableEq, Repr

/-- Modelled from the spec: `User.from_ip` is missing from the sources; per
the spec it returns the owning user when the IP row has an owner, a
distinguished anonymous result when the row has none, and not-found when no
row matches. -/
def from_ip (rows : List IPRow) (ip : String) : IpLookup :=
  match rows.find? (fun s => s.ip == ip) with
  | some r =>
    match r.account with
    | some uid => IpLookup.user uid
    | none => IpLookup.anonymous
  | none => IpLookup.notFound

/-- With pairwise distinct IP keys, `find?` on the key of a member row
returns exactly that row. -/
theorem find?_ip_eq (rows : List IPRow)
    (hnd : rows.Pairwise (fun a b => a.ip ≠ b.ip)) (r : IPRow)
    (hr : r ∈ rows) :
    rows.find? (fun s => s.ip == r.ip) = some r := by
  induction rows with
  | nil => cases hr
  | cons a rows ih =>
    rcases List.mem_cons.mp hr with rfl | hmem
    · simp [List.find?]
    · have hane : a.ip ≠ r.ip :=
        (List.pairwise_cons.mp hnd).1 r hmem
      have hcond : (a.ip == r.ip) = false := by
        simpa using hane
      rw [List.find?_cons_of_neg _ (by simp [hcond]),
        ih (List.pairwise_cons.mp hnd).2 hmem]

/-- C7: with the IP column a primary key, looking up the IP of a bound row
yields its owning user, and looking up an unclaimed row yields the
anonymous result, which is neither an error, nor not-found, nor any
user. -/
theorem from_ip_props (rows : List IPRow)
    (hnd : rows.Pairwise (fun a b => a.ip ≠ b.ip)) (r : IPRow)
    (hr : r ∈ rows) :
    (∀ uid, r.account = some uid → from_ip rows r.ip = IpLookup.user uid) ∧
    (r.account = none →
      from_ip rows r.ip = IpLookup.anonymous ∧
      from_ip rows r.ip ≠ IpLookup.notFound ∧
      ∀ uid, from_ip rows r.ip ≠ IpLookup.user uid) := by
  have hf := find?_ip_eq rows hnd r hr
  constructor
  · intro uid huid
    simp [from_ip, hf, huid]
  · intro hnone
    refine ⟨?_, ?_, ?_⟩ <;> simp [from_ip, hf, hnone]

/-- Witness for C7: a bound and an unclaimed IP row. -/
theorem from_ip_props_witness :
    from_ip [⟨"10.0.0.1", some "a"⟩, ⟨"10.0.0.2", none⟩]
      (IPRow.mk "10.0.0.1" (some "a")).ip = IpLookup.user "a" ∧
    from_ip [⟨"10.0.0.1", some "a"⟩, ⟨"10.0.0.2", none⟩]
      (IPRow.mk "10.0.0.2" none).ip = IpLookup.anonymous :=
  ⟨(from_ip_props [⟨"10.0.0.1", some "a"⟩, ⟨"10.0.0.2", none⟩]
      (by decide) ⟨"10.0.0.1", some "a"⟩ (by decide)).1 "a" rfl,
   ((from_ip_props [⟨"10.0.0.1", some "a"⟩, ⟨"10.0.0.2", none⟩]
      (by decide) ⟨"10.0.0.2", none⟩ (by decide)).2 rfl).1⟩

/-- Modelled from the spec: the `TrafficLog` table imported by the tests
from `sipa.model.hss.schema` is missing from the sources; per the spec a
row is (account id, calendar date, bytes-in, bytes-out), at most one row
per (account, date). Dates are absolute day numbers. -/
structure TrafficLog where
  account : String
  date : Int
  bytes_in : Nat
  bytes_out : Nat
deriving DecidableEq, Repr

/-- One record of the traffic history: per the spec the day of week, input
and output in kilobytes, the throughput in bytes, and a cumulative credit
snapshot in bytes. -/
structure TrafficEntry where
  day : Int
  input : ℚ
  output : ℚ
  throughput : Nat
  credit : Int
deriving DecidableEq, Repr

instance : Inhabited TrafficEntry := ⟨⟨0, 0, 0, 0, 0⟩⟩

/-- The fixed per-day credit grant, observed as 3 * 1024 ^ 2 bytes in the
reference deployment. -/
def daily_allowance : Int := 3 * 1024 ^ 2

/-- The day of week of an absolute day number. -/
def weekday (date : Int) : Int := date % 7

/-- The traffic-log row of an account on a date, when one exists. -/
def lookupLog (logs : List TrafficLog) (acc : String) (date : Int) :
    Option TrafficLog :=
  logs.find? (fun l => l.account == acc && l.date == date)

/-- Modelled from the spec: one day-record of the history. A day with a log
row reports its weekday, input and output in kilobytes and its throughput
in bytes; a day without one is zero-filled. The credit snapshot is the
cumulative balance handed in by the window walk. -/
def mkEntry (logs : List TrafficLog) (acc : String) (date : Int)
    (credit : Int) : TrafficEntry :=
  match lookupLog logs acc date with
  | some log =>
    { day := weekday date, input := (log.bytes_in : ℚ) / 1024,
      output := (log.bytes_out : ℚ) / 1024,
      throughput := log.bytes_in + log.bytes_out, credit := credit }
  | none =>
    { day := weekday date, input := 0, output := 0, throughput := 0,
      credit := credit }

/-- Modelled from the spec: the calendar walk of the traffic history engine,
one entry per day from `date` on, tracking the cumulative credit: each next
day starts with the previous credit plus the daily allowance minus the
previous throughput. -/
def historyFrom (logs : List TrafficLog) (acc : String) :
    Nat → Int → Int → List TrafficEntry
  | 0, _, _ => []
  | n + 1, date, credit =>
    let e := mkEntry logs acc date credit
    e :: historyFrom logs acc n (date + 1)
      (credit + daily_allowance - (e.throughput : Int))

/-- Modelled from the spec: `User.traffic_history` is missing from the
sources; per the spec it is the 7-day window of day-records covering the
inclusive range from six days before the as-of date through the as-of date,
oldest first. -/
def traffic_history (logs : List TrafficLog) (acc : String) (asOf c0 : Int) :
    List TrafficEntry :=
  historyFrom logs acc 7 (asOf - 6) c0

theorem mkEntry_credit (logs : List TrafficLog) (acc : String)
    (date credit : Int) : (mkEntry logs acc date credit).credit = credit := by
  cases h : lookupLog logs acc date <;> simp [mkEntry, h]

theorem historyFrom_length (logs : List TrafficLog) (acc : String) :
    ∀ (n : Nat) (d c : Int), (historyFrom logs acc n d c).length = n
  | 0, _, _ => rfl
  | n + 1, d, c => by
    simp [historyFrom, historyFrom_length logs acc n]

theorem historyFrom_head_credit (logs : List TrafficLog) (acc : String)
    (n : Nat) (d c : Int) (h : 0 < n) :
    ((historyFrom logs acc n d c).getD 0 default).credit = c := by
  cases n with
  | zero => exact absurd h (by simp)
  | succ m => simp [historyFrom, mkEntry_credit]

theorem historyFrom_delta (logs : List TrafficLog) (acc : String) :
    ∀ (n : Nat) (d c : Int) (i : Nat), i + 1 < n →
      ((historyFrom logs acc n d c).getD (i + 1) default).credit -
        ((historyFrom logs acc n d c).getD i default).credit =
      daily_allowance -
        (((historyFrom logs acc n d c).getD i default).throughput : Int)
  | 0, _, _, i, h => absurd h (by simp)
  | n + 1, d, c, 0, h => by
    have hn : 0 < n := by omega
    simp only [historyFrom, List.getD_cons_succ, List.getD_cons_zero]
    rw [historyFrom_head_credit logs acc n (d + 1) _ hn, mkEntry_credit]
    ring
  | n + 1, d, c, i + 1, h => by
    have hi : i + 1 < n := by omega
    simp only [historyFrom, List.getD_cons_succ]
    exact historyFrom_delta logs acc n (d + 1) _ i hi

theorem historyFrom_getD (logs : List TrafficLog) (acc : String) :
    ∀ (n : Nat) (d c : Int) (i : Nat), i < n →
      ∃ c2, (historyFrom logs acc n d c).getD i default =
        mkEntry logs acc (d + (i : Int)) c2
  | 0, _, _, i, h => absurd h (by simp)
  | n + 1, d, c, 0, _ => by
    refine ⟨c, ?_⟩
    simp [historyFrom]
  | n + 1, d, c, i + 1, h => by
    have hi : i < n := by omega
    obtain ⟨c2, hc2⟩ := historyFrom_getD logs acc n (d + 1)
      (c + daily_allowance -
        ((mkEntry logs acc d c).throughput : Int)) i hi
    refine ⟨c2, ?_⟩
    simp only [historyFrom, List.getD_cons_succ]
    rw [hc2]
    congr 1
    push_cast
    ring

/-- C1: between every pair of adjacent entries of the 7-day traffic history,
the credit grows by the daily allowance minus the throughput of the earlier
entry; gap days carry zero throughput, so the delta invariant holds across
them as well. -/
theorem hss_credit_delta (logs : List TrafficLog) (acc : String)
    (asOf c0 : Int) (i : Nat) (h : i + 1 < 7) :
    ((traffic_history logs acc asOf c0).getD (i + 1) default).credit -
      ((traffic_history logs acc asOf c0).getD i default).credit =
    daily_allowance -
      (((traffic_history logs acc asOf c0).getD i default).throughput : Int) :=
  historyFrom_delta logs acc 7 (asOf - 6) c0 i h

/-- Witness for C1 at a concrete log set with one real day inside the
window. -/
theorem hss_credit_delta_witness :
    ((traffic_history [⟨"b", 4, 100, 200⟩] "b" 10 0).getD 1 default).credit -
      ((traffic_history [⟨"b", 4, 100, 200⟩] "b" 10 0).getD 0 default).credit =
    daily_allowance -
      (((traffic_history [⟨"b", 4, 100, 200⟩] "b" 10 0).getD 0
        default).throughput : Int) :=
  hss_credit_delta [⟨"b", 4, 100, 200⟩] "b" 10 0 0 (by decide)

/-- C2: the traffic history always has exactly 7 entries; entry i is built
from the date six days before the as-of date plus i, so the window covers
the trailing week oldest first; a day with a log row reports that row's
weekday, input and output in kilobytes, and a day without one is
zero-filled, never an error. -/
theorem traffic_history_window (logs : List TrafficLog) (acc : String)
    (asOf c0 : Int) :
    (traffic_history logs acc asOf c0).length = 7 ∧
    ∀ i : Nat, i < 7 →
      ((lookupLog logs acc (asOf - 6 + (i : Int)) = none →
        ((traffic_history logs acc asOf c0).getD i default).input = 0 ∧
        ((traffic_history logs acc asOf c0).getD i default).output = 0) ∧
      (∀ log, lookupLog logs acc (asOf - 6 + (i : Int)) = some log →
        ((traffic_history logs acc asOf c0).getD i default).day =
          weekday (asOf - 6 + (i : Int)) ∧
        ((traffic_history logs acc asOf c0).getD i default).input =
          (log.bytes_in : ℚ) / 1024 ∧
        ((traffic_history logs acc asOf c0).getD i default).output =
          (log.bytes_out : ℚ) / 1024)) := by
  refine ⟨historyFrom_length logs acc 7 (asOf - 6) c0, ?_⟩
  intro i hi
  obtain ⟨c2, hc2⟩ := historyFrom_getD logs acc 7 (asOf - 6) c0 i hi
  rw [show traffic_history logs acc asOf c0 =
    historyFrom logs acc 7 (asOf - 6) c0 from rfl, hc2]
  constructor
  · intro hnone
    simp [mkEntry, hnone]
  · intro log hlog
    simp [mkEntry, hlog]

/-- Witness for C2: the empty log set gives a 7-entry, zero-filled
window. -/
theorem traffic_history_window_witness :
    (traffic_history [] "a" 0 0).length = 7 ∧
    ((traffic_history [] "a" 0 0).getD 0 default).input = 0 ∧
    ((traffic_history [] "a" 0 0).getD 0 default).output = 0 :=
  ⟨(traffic_history_window [] "a" 0 0).1,
   ((traffic_history_window [] "a" 0 0).2 0 (by decide)).1 rfl⟩

/-- C8: for every account, `has_connection` is true exactly when the status
label is the localized active label, and `has_connection` equals the
backend-reported active property. -/
theorem status_agrees (p : AccountProps) :
    (has_connection p = true ↔ status p = "Aktiv") ∧
    has_connection p = p.active := by
  refine ⟨?_, rfl⟩
  cases hp : p.active <;> simp [has_connection, status, hp]

/-- C9: the displayed credit times 1024 gives back the stored byte count
exactly (the single division by 1024 loses nothing), the credit is that
division, and the reference value 10000000000 bytes displays as 9765625
kilobytes. -/
theorem traffic_balance_conversion (a : Account) :
    user_credit a * 1024 = (a.traffic_balance : ℚ) ∧
    user_credit a = (a.traffic_balance : ℚ) / 1024 ∧
    user_credit ⟨"abc123", "n", 10000000000, none⟩ = 9765625 := by
  refine ⟨?_, rfl, by norm_num [user_credit]⟩
  rw [user_credit, div_mul_cancel₀]
  norm_num

/-- C10: an account row created without an explicit traffic balance receives
the schema default of 10000000000 bytes, and its displayed traffic balance
is 9765625 kilobytes. -/
theorem account_default_traffic_balance (acc nm : String)
    (access : Option Int) :
    (insertAccount acc nm none access).traffic_balance = 10000000000 ∧
    user_credit (insertAccount acc nm none access) = 9765625 := by
  refine ⟨rfl, ?_⟩
  norm_num [user_credit, insertAccount, traffic_balance_default]

end Sipa
